import Mathlib

/-
  Verification of the catastrophe-risk simulation core of QuantLib-noBoost.

  The repository sources provide the declarations of the core
  (ql/experimental/catbonds/catrisk.hpp) and the null_deleter utility
  (ql/utilities/null_deleter.hpp).  The member-function bodies of
  EventSetSimulation, EventSet, BetaRiskSimulation and BetaRisk live in a
  translation unit that is not part of the given sources, so those bodies are
  modelled from the specification (spec.md sections 4.1 to 4.4); each such
  definition carries a doc comment starting with "Modelled from the spec:".
  The Date type is an external collaborator (spec section 6); it is modelled
  as a Gregorian calendar date with serial-number arithmetic, which is the
  QuantLib Date contract the spec names: subtraction in days, addition of
  years, total ordering.

  Real-valued quantities are modelled as rationals; losses are carried
  through the event-set simulator unchanged and the Beta model's parameter
  derivation is pure field arithmetic, so no real-analytic facts are needed.
-/

set_option maxRecDepth 100000

namespace CatRisk

/-! ## Date: the external calendar collaborator (spec section 6) -/

/-- A Gregorian calendar date, the minimal Date contract of spec section 6. -/
structure Date where
  year : Int
  month : Int
  day : Int
deriving DecidableEq, Repr

/-- Gregorian leap-year rule. -/
def isLeapYear (y : Int) : Bool :=
  (y % 4 == 0 && y % 100 != 0) || y % 400 == 0

/-- Number of days of month `m` in year `y`. -/
def daysInMonth (y m : Int) : Int :=
  if m = 2 then (if isLeapYear y then 29 else 28)
  else if m = 4 ∨ m = 6 ∨ m = 9 ∨ m = 11 then 30
  else 31

/-- A calendar-valid date. -/
def validDate (dt : Date) : Prop :=
  1 ≤ dt.month ∧ dt.month ≤ 12 ∧ 1 ≤ dt.day ∧ dt.day ≤ daysInMonth dt.year dt.month

instance (dt : Date) : Decidable (validDate dt) := by
  unfold validDate; infer_instance

/-- Serial day number of a date (days since 1970-01-01, proleptic Gregorian).
Integer division on `Int` is Euclidean, which for the positive divisors used
here is floor division, so the closed form is valid for every year. -/
def toSerial (dt : Date) : Int :=
  if dt.month ≤ 2 then
    365 * (dt.year - 1) + (dt.year - 1) / 4 - (dt.year - 1) / 100 + (dt.year - 1) / 400
      + (153 * (dt.month + 9) + 2) / 5 + dt.day - 1 - 719468
  else
    365 * dt.year + dt.year / 4 - dt.year / 100 + dt.year / 400
      + (153 * (dt.month - 3) + 2) / 5 + dt.day - 1 - 719468

/-- Date plus a number of years: same month and day-of-month, with 29 February
mapped to 28 February in a non-leap target year (the QuantLib rule; the spec
delegates leap handling to the Date module). -/
def addYears (dt : Date) (n : Int) : Date :=
  let y := dt.year + n
  let d := if dt.month = 2 ∧ dt.day = 29 ∧ ¬ isLeapYear y then 28 else dt.day
  ⟨y, dt.month, d⟩

-- sanity examples (scratch)
example : toSerial ⟨1970, 1, 1⟩ = 0 := by decide
example : toSerial ⟨2000, 3, 1⟩ - toSerial ⟨2000, 2, 28⟩ = 2 := by decide
example : toSerial ⟨2001, 3, 1⟩ - toSerial ⟨2001, 2, 28⟩ = 1 := by decide
example : toSerial ⟨2001, 1, 1⟩ - toSerial ⟨2000, 1, 1⟩ = 366 := by decide
example : toSerial ⟨2002, 1, 1⟩ - toSerial ⟨2001, 1, 1⟩ = 365 := by decide
example : addYears ⟨2000, 2, 29⟩ 1 = ⟨2001, 2, 28⟩ := by decide
example : addYears ⟨2000, 2, 29⟩ 4 = ⟨2004, 2, 29⟩ := by decide

/-! ## Events and paths (spec section 3) -/

/-- A historical event: a calendar date and a loss amount. -/
abbrev Event := Date × ℚ

/-- An emitted path event: the date is carried as its serial day number
(the event-set simulator produces dates only through day arithmetic on
`start`, and paths are consumed through day ordering alone). -/
abbrev PathEvent := Int × ℚ

/-- The historical events are time-ordered (spec section 3, data model). -/
def sortedEvents (l : List Event) : Prop :=
  l.Pairwise (fun a b => toSerial a.1 ≤ toSerial b.1)

instance (l : List Event) : Decidable (sortedEvents l) := by
  unfold sortedEvents; infer_instance

/-! ## EventSetSimulation (header catrisk.hpp lines 57-71) -/

/-- State of an `EventSetSimulation`, mirroring the data members declared in
catrisk.hpp: the shared event sequence, the historical window
`[eventsStart, eventsEnd]`, the reference window `[refStart, refEnd]`
(`start_`/`end_` of `CatSimulation`), `years_`, the rolling sub-period
`[periodStart, periodEnd]` and the cursor `i`. -/
structure EventSetSimulation where
  events : List Event
  eventsStart : Date
  eventsEnd : Date
  refStart : Date
  refEnd : Date
  years : Int
  periodStart : Date
  periodEnd : Date
  i : ℕ
deriving DecidableEq

/-- Modelled from the spec: the `EventSetSimulation` constructor
(catrisk.cpp is absent from the sources).  Spec sections 3 and 4.3:
`years = end.year - start.year`, initial sub-period
`[histStart, histStart + Y years]`, cursor `0`. -/
def EventSetSimulation.make (events : List Event) (eventsStart eventsEnd refStart refEnd : Date) :
    EventSetSimulation :=
  let Y := refEnd.year - refStart.year
  { events := events
    eventsStart := eventsStart
    eventsEnd := eventsEnd
    refStart := refStart
    refEnd := refEnd
    years := Y
    periodStart := eventsStart
    periodEnd := addYears eventsStart Y
    i := 0 }

/-- The terminal state test of spec section 4.3 step 2: `periodEnd > histEnd`. -/
def EventSetSimulation.exhausted (s : EventSetSimulation) : Prop :=
  toSerial s.eventsEnd < toSerial s.periodEnd

instance (s : EventSetSimulation) : Decidable s.exhausted := by
  unfold EventSetSimulation.exhausted; infer_instance

/-- The cursor advance of spec section 4.3 step 3: the events from the cursor
on whose date precedes `periodStart`, which the call skips. -/
def EventSetSimulation.skipped (s : EventSetSimulation) : List Event :=
  (s.events.drop s.i).takeWhile (fun ev => toSerial ev.1 < toSerial s.periodStart)

/-- The events the call of spec section 4.3 step 4 emits: after the skip of
step 3, the run of events whose date is at most `periodEnd`. -/
def EventSetSimulation.selected (s : EventSetSimulation) : List Event :=
  ((s.events.drop s.i).dropWhile (fun ev => toSerial ev.1 < toSerial s.periodStart)).takeWhile
    (fun ev => toSerial ev.1 ≤ toSerial s.periodEnd)

/-- The emission of spec section 4.3 step 4: remap the event date by the
day offset from `periodStart` onto the reference `start`; the loss is
carried unchanged. -/
def EventSetSimulation.emit (s : EventSetSimulation) (ev : Event) : PathEvent :=
  (toSerial s.refStart + (toSerial ev.1 - toSerial s.periodStart), ev.2)

/-- The state after a successful call, spec section 4.3 step 5: cursor past
the skipped and emitted events, sub-period advanced by `years`. -/
def EventSetSimulation.advanced (s : EventSetSimulation) : EventSetSimulation :=
  { s with
    i := s.i + s.skipped.length + s.selected.length
    periodStart := addYears s.periodStart s.years
    periodEnd := addYears s.periodEnd s.years }

/-- Modelled from the spec: `EventSetSimulation::nextPath` (catrisk.cpp is
absent from the sources).  Spec section 4.3: clear the buffer; if
`periodEnd > histEnd` return `false`; advance the cursor past events dated
before `periodStart`; emit `(start + (h - periodStart), loss)` for each event
at date `h ≤ periodEnd`; advance the sub-period by `years`; return `true`.
The returned triple is (result, buffer contents, new state). -/
def EventSetSimulation.nextPath (s : EventSetSimulation) :
    Bool × List PathEvent × EventSetSimulation :=
  if toSerial s.eventsEnd < toSerial s.periodEnd then (false, [], s)
  else (true, s.selected.map s.emit, s.advanced)

/-- Run `n` successive `nextPath` calls, collecting each call's result and
buffer contents. -/
def EventSetSimulation.run (s : EventSetSimulation) :
    ℕ → List (Bool × List PathEvent) × EventSetSimulation
  | 0 => ([], s)
  | n + 1 =>
    let r := s.nextPath
    let rest := EventSetSimulation.run r.2.2 n
    ((r.1, r.2.1) :: rest.1, rest.2)

/-! ## Rational rounding helpers (computable counterparts of floor/round) -/

/-- Computable floor of a rational. -/
def ratFloor (q : ℚ) : Int := q.num / q.den

/-- Computable round-half-up of a rational, the `round` of spec section 4.4. -/
def ratRound (q : ℚ) : Int := ratFloor (q + 1/2)

/-! ## Error kinds (spec section 7) -/

/-- Error kinds of the core, spec section 7. -/
inductive CatError where
  | invalidInput : CatError
  | numericError : CatError
deriving DecidableEq, Repr

/-! ## BetaRisk (header catrisk.hpp lines 110-124) -/

/-- The derived Beta shape parameter alpha of spec section 4.1:
`m = mean/maxLoss`, `v = (stdDev/maxLoss)^2 * (1/years)`,
`alpha = ((1-m)/v - 1/m) * m^2`. -/
def alphaShape (maxLoss years mean stdDev : ℚ) : ℚ :=
  let lambda := 1 / years
  let m := mean / maxLoss
  let v := (stdDev / maxLoss) ^ 2 * lambda
  ((1 - m) / v - 1 / m) * m ^ 2

/-- The derived Beta shape parameter beta of spec section 4.1:
`beta = alpha * (1/m - 1)`. -/
def betaShape (maxLoss years mean stdDev : ℚ) : ℚ :=
  alphaShape maxLoss years mean stdDev * (1 / (mean / maxLoss) - 1)

/-- The Beta-frequency risk model, mirroring the data members declared in
catrisk.hpp: `maxLoss_`, `lambda_`, `alpha_`, `beta_`. -/
structure BetaRisk where
  maxLoss : ℚ
  lambda : ℚ
  alpha : ℚ
  beta : ℚ
deriving DecidableEq, Repr

/-- Modelled from the spec: the `BetaRisk` constructor (catrisk.cpp is absent
from the sources).  Spec section 4.1: derive `lambda = 1/years` and the Beta
shape parameters, and fail with `InvalidInput` exactly when the derived alpha
or beta is non-positive. -/
def BetaRisk.make (maxLoss years mean stdDev : ℚ) : Except CatError BetaRisk :=
  let alpha := alphaShape maxLoss years mean stdDev
  let beta := betaShape maxLoss years mean stdDev
  if alpha ≤ 0 ∨ beta ≤ 0 then .error .invalidInput
  else .ok { maxLoss := maxLoss, lambda := 1 / years, alpha := alpha, beta := beta }

/-! ## The mt19937 engine state (member `rng_` of BetaRiskSimulation)

The header declares `std::mt19937 rng_` together with three
`variate_generator<std::mt19937&, _>` members, all referencing that single
engine.  The mt19937 state-initialisation recurrence and the tempering of the
first generated word are fixed by the mt19937 algorithm, so they are embedded
directly; 32-bit words are naturals reduced modulo `2^32`. -/

/-- The mt19937 word modulus `2^32`. -/
def mtMask : ℕ := 4294967296

/-- Build the tail of the mt19937 seed-initialisation sequence: given
word `x` at index `i - 1`, produce the next `n` words starting with `x`,
via `x_i = (1812433253 * (x_{i-1} xor (x_{i-1} >> 30)) + i) mod 2^32`. -/
def mtStateGo (x : ℕ) (i : ℕ) : ℕ → List ℕ
  | 0 => []
  | n + 1 => x :: mtStateGo ((1812433253 * (x ^^^ (x >>> 30)) + i) % mtMask) (i + 1) n

/-- The 624-word mt19937 state produced by seeding with `seed`. -/
def mt19937InitState (seed : ℕ) : List ℕ :=
  mtStateGo (seed % mtMask) 1 624

/-- The mt19937 tempering transform. -/
def mtTemper (y : ℕ) : ℕ :=
  let y1 := y ^^^ (y >>> 11)
  let y2 := y1 ^^^ ((y1 <<< 7) % mtMask &&& 2636928640)
  let y3 := y2 ^^^ ((y2 <<< 15) % mtMask &&& 4022730752)
  y3 ^^^ (y3 >>> 18)

/-- The first output word the mt19937 engine generates from an initial state:
one twist step on words 0, 1 and 397, then tempering. -/
def mtFirstRaw (st : List ℕ) : ℕ :=
  let x0 := st.headD 0
  let x1 := (st.drop 1).headD 0
  let x397 := (st.drop 397).headD 0
  let y := x0 / 2 ^ 31 * 2 ^ 31 + x1 % 2 ^ 31
  mtTemper (x397 ^^^ (y / 2) ^^^ (if y % 2 = 1 then 2567483615 else 0))

/-! ## BetaRiskSimulation (header catrisk.hpp lines 86-108) -/

/-- State of a `BetaRiskSimulation`, mirroring the data members declared in
catrisk.hpp: `maxLoss_`, `dayCount_`, `yearFraction_` and the engine `rng_`
(its 624-word state plus the number of variates already drawn from it; the
three variate generators declared in the header all reference this single
engine). -/
structure BetaRiskSimulation where
  maxLoss : ℚ
  dayCount : Int
  yearFraction : ℚ
  startSerial : Int
  rngState : List ℕ
  pos : ℕ
deriving DecidableEq

/-- Modelled from the spec: the reproducibility mode of spec section 4.4
("a caller-supplied seed yields the same sequence of paths"): build a
simulator over `[startD, endD]` whose engine is seeded with `seed`.
`dayCount` is the day difference and `yearFraction` the 365-style year
fraction of spec section 4.4. -/
def BetaRisk.newSimulationSeeded (r : BetaRisk) (startD endD : Date) (seed : ℕ) :
    BetaRiskSimulation :=
  { maxLoss := r.maxLoss
    dayCount := toSerial endD - toSerial startD
    yearFraction := ((toSerial endD - toSerial startD : ℤ) : ℚ) / 365
    startSerial := toSerial startD
    rngState := mt19937InitState seed
    pos := 0 }

/-- Modelled from the spec: `BetaRisk::newSimulation` (catrisk.cpp is absent
from the sources).  Spec sections 4.4 and 5: the default seeding policy is
implementation-defined, but simulators spawned successively from one model
must receive distinct internal states; modelled as drawing consecutive seeds
from an ambient entropy counter, which the call advances. -/
def BetaRisk.newSimulation (r : BetaRisk) (startD endD : Date) (entropy : ℕ) :
    BetaRiskSimulation × ℕ :=
  (r.newSimulationSeeded startD endD entropy, entropy + 1)

/-- Modelled from the spec: the path loop of `BetaRiskSimulation::nextPath`
(catrisk.cpp is absent from the sources).  Spec section 4.4: repeatedly draw
an exponential inter-arrival `delta` and advance `t`; stop once `t ≥ T`;
otherwise draw the two gamma severities `x`, `y` and emit
`(start + round(t*D/T), maxLoss * x/(x+y))`.  All three distributions draw
from the one shared engine, modelled as the raw variate stream `u` indexed by
the running position `pos`; the draw-to-variate transforms of the C++
standard library are implementation-defined and are therefore parameters
(`expInv`, `gA`, `gB`).  `fuel` bounds the almost-surely-finite loop; `none`
means the fuel ran out before `t` reached `T`. -/
def betaNextPathGo (maxLoss T : ℚ) (D startS : Int) (expInv gA gB : ℚ → ℚ) (u : ℕ → ℚ)
    (t : ℚ) (pos : ℕ) : ℕ → Option (List PathEvent × ℕ)
  | 0 => none
  | fuel + 1 =>
    let t2 := t + expInv (u pos)
    if T ≤ t2 then some ([], pos + 1)
    else
      let x := gA (u (pos + 1))
      let y := gB (u (pos + 2))
      let ev : PathEvent := (startS + ratRound (t2 * D / T), maxLoss * x / (x + y))
      match betaNextPathGo maxLoss T D startS expInv gA gB u t2 (pos + 3) fuel with
      | none => none
      | some (rest, p2) => some (ev :: rest, p2)

/-- Modelled from the spec: `BetaRiskSimulation::nextPath`, spec section 4.4.
Starts the loop at `t = 0` from the simulator's current engine position; on
completion the path is returned (the call always succeeds, the Beta simulator
never exhausts) and the engine position advances past the consumed draws. -/
def BetaRiskSimulation.nextPath (s : BetaRiskSimulation) (expInv gA gB : ℚ → ℚ)
    (u : ℕ → ℚ) (fuel : ℕ) : Option (List PathEvent × BetaRiskSimulation) :=
  match betaNextPathGo s.maxLoss s.yearFraction s.dayCount s.startSerial
      expInv gA gB u 0 s.pos fuel with
  | none => none
  | some (path, pos2) => some (path, { s with pos := pos2 })

/-! ## null_deleter (source ql/utilities/null_deleter.hpp lines 29-36) -/

/-- Shallow heap model for deleter semantics: the set of live objects of a
pointee type, as a Boolean liveness map. -/
def Heap (π : Type) := π → Bool

/-- The source's `null_deleter` (`inline auto null_deleter = [](auto*)noexcept {};`):
invoked on any pointer of any type, its body is empty, so the heap is
returned unchanged. -/
def null_deleter {π : Type} (_p : π) (h : Heap π) : Heap π := h

/-- An ordinary deleter for comparison: releasing `p` removes it from the
live set (what `shared_ptr`'s default deleter does). -/
def defaultDelete {π : Type} [DecidableEq π] (p : π) (h : Heap π) : Heap π :=
  fun q => if q = p then false else h q

/-- Release of the last reference of a `shared_ptr` holding `p` that was
constructed with deleter `d`: the deleter is invoked on the stored pointer. -/
def releaseLast {π : Type} (d : π → Heap π → Heap π) (p : π) (h : Heap π) : Heap π :=
  d p h

/-! ## Concrete sample instances (used by witnesses and counterexamples) -/

/-- The historical dataset of spec scenario S1. -/
def histSample : List Event :=
  [(⟨2000, 3, 15⟩, 100), (⟨2001, 7, 4⟩, 50), (⟨2002, 11, 20⟩, 75)]

/-- The event-set simulator of spec scenario S1: history `[2000-01-01,
2002-12-31]`, reference window `[2010-01-01, 2012-12-31]`. -/
def simS1 : EventSetSimulation :=
  EventSetSimulation.make histSample ⟨2000, 1, 1⟩ ⟨2002, 12, 31⟩ ⟨2010, 1, 1⟩ ⟨2012, 12, 31⟩

/-- An immediately exhausted event-set simulator: the first sub-period
`[2000-01-01, 2001-01-01]` already overruns the historical end 2000-06-01. -/
def simExhausted : EventSetSimulation :=
  EventSetSimulation.make [] ⟨2000, 1, 1⟩ ⟨2000, 6, 1⟩ ⟨2010, 1, 1⟩ ⟨2011, 1, 1⟩

/-- An event-set simulator whose first sub-period `[2000-01-01, 2001-01-01]`
spans 366 days (2000 is a leap year) while the reference window
`[2010-06-01, 2011-05-31]` spans 364: the event on the sub-period's last day
is remapped past the reference end. -/
def simOverrun : EventSetSimulation :=
  EventSetSimulation.make [(⟨2001, 1, 1⟩, 5)] ⟨2000, 1, 1⟩ ⟨2001, 12, 31⟩ ⟨2010, 6, 1⟩ ⟨2011, 5, 31⟩

/-- A sample Beta risk model value. -/
def betaSample : BetaRisk :=
  { maxLoss := 1000, lambda := 1/10, alpha := 2, beta := 3 }

/-! ## Helper lemmas -/

theorem take_length_takeWhile {α : Type} (p : α → Bool) (l : List α) :
    l.take (l.takeWhile p).length = l.takeWhile p := by
  induction l with
  | nil => rfl
  | cons a t ih =>
    by_cases h : p a
    · simp [List.takeWhile_cons, h, ih]
    · simp [List.takeWhile_cons, h]

theorem dropWhile_eq_drop_length {α : Type} (p : α → Bool) (l : List α) :
    l.dropWhile p = l.drop (l.takeWhile p).length := by
  induction l with
  | nil => rfl
  | cons a t ih =>
    by_cases h : p a
    · simp [List.takeWhile_cons, List.dropWhile_cons, h, ih]
    · simp [List.takeWhile_cons, List.dropWhile_cons, h]

theorem dropWhile_eq_self_of_all {α : Type} (p : α → Bool) (l : List α)
    (h : ∀ x ∈ l, ¬ p x) : l.dropWhile p = l := by
  cases l with
  | nil => rfl
  | cons a t =>
    rw [List.dropWhile_cons, if_neg]
    exact h a (List.mem_cons_self a t)

theorem sorted_mem_dropWhile_ge (pS : Int) (l : List Event)
    (hs : l.Pairwise (fun a b => toSerial a.1 ≤ toSerial b.1)) {e : Event}
    (he : e ∈ l.dropWhile (fun ev => toSerial ev.1 < pS)) : pS ≤ toSerial e.1 := by
  induction l with
  | nil => simp at he
  | cons a t ih =>
    rw [List.dropWhile_cons] at he
    by_cases h : toSerial a.1 < pS
    · simp [h] at he
      exact ih hs.of_cons he
    · simp [h] at he
      rcases he with rfl | he2
      · omega
      · have := (List.pairwise_cons.mp hs).1 e he2
        omega

theorem daysInMonth_le_31 (y m : Int) : daysInMonth y m ≤ 31 := by
  unfold daysInMonth
  split_ifs <;> omega

theorem addYears_valid (dt : Date) (hv : validDate dt) (n : Int) :
    validDate (addYears dt n) := by
  obtain ⟨h1, h2, h3, h4⟩ := hv
  unfold validDate addYears
  dsimp only
  refine ⟨h1, h2, ?_, ?_⟩
  · split_ifs <;> omega
  · split_ifs with c
    · simp [daysInMonth, c.1, c.2.2]
    · by_cases hm : dt.month = 2
      · have hday : dt.day ≤ 29 := by
          have h4b := h4
          unfold daysInMonth at h4b
          rw [if_pos hm] at h4b
          split_ifs at h4b <;> omega
        unfold daysInMonth
        rw [if_pos hm]
        by_cases hl : isLeapYear (dt.year + n) = true
        · rw [if_pos hl]
          omega
        · have hne : dt.day ≠ 29 := fun hd => c ⟨hm, hd, hl⟩
          rw [if_neg hl]
          omega
      · have heq : daysInMonth (dt.year + n) dt.month = daysInMonth dt.year dt.month := by
          unfold daysInMonth
          rw [if_neg hm, if_neg hm]
        rw [heq]
        exact h4

theorem toSerial_addYears_lt (dt : Date) (hv : validDate dt) (k : Int) (hk : 1 ≤ k) :
    toSerial dt < toSerial (addYears dt k) := by
  obtain ⟨h1, h2, h3, h4⟩ := hv
  have h31 : dt.day ≤ 31 := le_trans h4 (daysInMonth_le_31 _ _)
  have key : ∀ d2 : Int, dt.day - 1 ≤ d2 → d2 ≤ 31 →
      toSerial dt < toSerial ⟨dt.year + k, dt.month, d2⟩ := by
    intro d2 hd2 hd2b
    unfold toSerial
    dsimp only
    by_cases hm2 : dt.month ≤ 2
    · rw [if_pos hm2, if_pos hm2]
      omega
    · rw [if_neg hm2, if_neg hm2]
      omega
  unfold addYears
  dsimp only
  split_ifs with c
  · obtain ⟨-, hc, -⟩ := c
    exact key 28 (by omega) (by omega)
  · exact key dt.day (by omega) h31

theorem ratFloor_eq_floor (q : ℚ) : ratFloor q = ⌊q⌋ := Rat.floor_def.symm

theorem ratRound_eq_round (q : ℚ) : ratRound q = round q := by
  rw [ratRound, ratFloor_eq_floor, round_eq]

theorem ratRound_mono {a b : ℚ} (h : a ≤ b) : ratRound a ≤ ratRound b := by
  rw [ratRound_eq_round, ratRound_eq_round, round_eq, round_eq]
  exact Int.floor_mono (by linarith)

theorem ratRound_nonneg {q : ℚ} (h : 0 ≤ q) : 0 ≤ ratRound q := by
  rw [ratRound_eq_round, round_eq]
  rw [Int.le_floor]
  push_cast
  linarith

theorem ratRound_le_int {q : ℚ} {D : Int} (h : q ≤ (D : ℚ)) : ratRound q ≤ D := by
  rw [ratRound_eq_round, round_eq]
  have : ⌊q + 1/2⌋ < D + 1 := by
    rw [Int.floor_lt]
    push_cast
    linarith
  omega

theorem mt19937InitState_head (seed : ℕ) :
    (mt19937InitState seed).head? = some (seed % mtMask) := rfl

theorem nextPath_exhausted_eq (s : EventSetSimulation)
    (hc : toSerial s.eventsEnd < toSerial s.periodEnd) : s.nextPath = (false, [], s) := by
  unfold EventSetSimulation.nextPath
  rw [if_pos hc]

theorem nextPath_live_eq (s : EventSetSimulation)
    (hc : ¬ toSerial s.eventsEnd < toSerial s.periodEnd) :
    s.nextPath = (true, s.selected.map s.emit, s.advanced) := by
  unfold EventSetSimulation.nextPath
  rw [if_neg hc]

theorem selected_mem_events {s : EventSetSimulation} {ev : Event}
    (h : ev ∈ s.selected) : ev ∈ s.events := by
  unfold EventSetSimulation.selected at h
  exact (((List.takeWhile_sublist _).trans ((List.dropWhile_sublist _).trans
    (List.drop_sublist _ _))).mem h)

theorem selected_le_periodEnd {s : EventSetSimulation} {ev : Event}
    (h : ev ∈ s.selected) : toSerial ev.1 ≤ toSerial s.periodEnd := by
  unfold EventSetSimulation.selected at h
  have h2 := List.mem_takeWhile_imp h
  simpa using h2

theorem selected_ge_periodStart {s : EventSetSimulation} (hs : sortedEvents s.events)
    {ev : Event} (h : ev ∈ s.selected) : toSerial s.periodStart ≤ toSerial ev.1 := by
  unfold EventSetSimulation.selected at h
  have h2 := (List.takeWhile_sublist _).mem h
  exact sorted_mem_dropWhile_ge _ _ (hs.sublist (List.drop_sublist _ _)) h2

theorem selected_sorted {s : EventSetSimulation} (hs : sortedEvents s.events) :
    s.selected.Pairwise (fun a b => toSerial a.1 ≤ toSerial b.1) := by
  unfold EventSetSimulation.selected
  exact hs.sublist (((List.takeWhile_sublist _).trans ((List.dropWhile_sublist _).trans
    (List.drop_sublist _ _))))

/-! ## Claim theorems -/

/-- C1: for every `EventSetSimulation` and every `nextPath` call that returns
`true`, every emitted event corresponds to a historical event at date `h`
lying in the current sub-period starting at `p = periodStart` (with
`periodStart ≤ h ≤ periodEnd`), its emitted date equals `start + (h - p)`
days, and its loss equals the historical event's loss unchanged.  The
historical sequence is time-ordered per the data model of spec section 3. -/
theorem eventSet_remap (s : EventSetSimulation) (hs : sortedEvents s.events)
    (hb : s.nextPath.1 = true) :
    ∀ pe ∈ s.nextPath.2.1, ∃ ev ∈ s.events,
      toSerial s.periodStart ≤ toSerial ev.1 ∧
      toSerial ev.1 ≤ toSerial s.periodEnd ∧
      pe.1 = toSerial s.refStart + (toSerial ev.1 - toSerial s.periodStart) ∧
      pe.2 = ev.2 := by
  by_cases hc : toSerial s.eventsEnd < toSerial s.periodEnd
  · rw [nextPath_exhausted_eq s hc] at hb
    simp at hb
  · rw [nextPath_live_eq s hc]
    intro pe hpe
    dsimp only at hpe
    rcases List.mem_map.mp hpe with ⟨ev, hev, rfl⟩
    exact ⟨ev, selected_mem_events hev, selected_ge_periodStart hs hev,
      selected_le_periodEnd hev, rfl, rfl⟩

/-- Witness for C1 at the scenario-S1 simulator, at the path event remapped
from the historical event of 2000-03-15 (74 days into the sub-period). -/
theorem eventSet_remap_witness :
    ∃ ev ∈ simS1.events,
      toSerial simS1.periodStart ≤ toSerial ev.1 ∧
      toSerial ev.1 ≤ toSerial simS1.periodEnd ∧
      (toSerial (⟨2010, 1, 1⟩ : Date) + 74, (100 : ℚ)).1
        = toSerial simS1.refStart + (toSerial ev.1 - toSerial simS1.periodStart) ∧
      (toSerial (⟨2010, 1, 1⟩ : Date) + 74, (100 : ℚ)).2 = ev.2 :=
  eventSet_remap simS1 (by decide) (by decide)
    (toSerial ⟨2010, 1, 1⟩ + 74, (100 : ℚ)) (by decide)

/-- C3: once an `EventSetSimulation` is exhausted (`periodEnd > histEnd`),
every subsequent `nextPath` call returns `false` with an empty buffer and an
unchanged state; moreover every `false` return leaves the buffer empty, keeps
the state unchanged, and coincides with exhaustion.  Exhaustion is a normal
`false` return of the total function `nextPath`, never an error. -/
theorem eventSet_exhausted_forever (s : EventSetSimulation) (hex : s.exhausted) :
    (∀ n : ℕ, s.run n = (List.replicate n (false, []), s)) ∧
    (∀ s2 : EventSetSimulation, s2.nextPath.1 = false →
      s2.nextPath.2.1 = [] ∧ s2.nextPath.2.2 = s2 ∧ s2.exhausted) := by
  constructor
  · intro n
    induction n with
    | zero => rfl
    | succ n ih =>
      have h1 : s.nextPath = (false, [], s) := nextPath_exhausted_eq s hex
      simp [EventSetSimulation.run, h1, ih, List.replicate_succ]
  · intro s2 hb
    by_cases hc : toSerial s2.eventsEnd < toSerial s2.periodEnd
    · rw [nextPath_exhausted_eq s2 hc]
      exact ⟨rfl, rfl, hc⟩
    · rw [nextPath_live_eq s2 hc] at hb
      simp at hb

/-- Witness for C3 at an immediately exhausted simulator. -/
theorem eventSet_exhausted_forever_witness :
    simExhausted.run 3 = (List.replicate 3 (false, []), simExhausted) :=
  (eventSet_exhausted_forever simExhausted (by decide)).1 3

theorem cursor_decomposition {α : Type} (p q : α → Bool) (l : List α) (n : ℕ) :
    l.drop n = (l.drop n).takeWhile p ++
      (((l.drop n).dropWhile p).takeWhile q ++
        l.drop (n + ((l.drop n).takeWhile p).length + (((l.drop n).dropWhile p).takeWhile q).length)) := by
  have h1 : ((l.drop n).dropWhile p).dropWhile q =
      l.drop (n + ((l.drop n).takeWhile p).length + (((l.drop n).dropWhile p).takeWhile q).length) := by
    rw [dropWhile_eq_drop_length q, dropWhile_eq_drop_length p, List.drop_drop, List.drop_drop]
    congr 1
    omega
  rw [← h1, ← List.takeWhile_append_dropWhile (p := q) (l := (l.drop n).dropWhile p),
    ← List.takeWhile_append_dropWhile (p := p) (l := l.drop n)]
  simp [List.takeWhile_append_dropWhile]

/-- C8: the cursor `i_` is non-decreasing across `nextPath` calls, and on a
successful call the emitted path is the image under `emit` of exactly the
events in positions `[i + pre.length, nextI)` of the event sequence, where
positions `[i, i + pre.length)` are skipped: position ranges of successive
calls are disjoint, so each historical event is emitted in at most one path
over the simulator's lifetime, and an event on the date shared as `periodEnd`
of one sub-period and `periodStart` of the next is consumed by the earlier
call and never re-emitted. -/
theorem eventSet_cursor_monotone (s : EventSetSimulation) :
    s.i ≤ s.nextPath.2.2.i ∧
    (s.nextPath.1 = true →
      ∃ pre mid : List Event,
        s.i + pre.length + mid.length = s.nextPath.2.2.i ∧
        s.events.drop s.i = pre ++ (mid ++ s.events.drop s.nextPath.2.2.i) ∧
        s.nextPath.2.1 = mid.map s.emit) := by
  by_cases hc : toSerial s.eventsEnd < toSerial s.periodEnd
  · rw [nextPath_exhausted_eq s hc]
    refine ⟨le_refl _, fun h => ?_⟩
    simp at h
  · rw [nextPath_live_eq s hc]
    dsimp only [EventSetSimulation.advanced]
    refine ⟨by omega, fun _ => ⟨s.skipped, s.selected, rfl, ?_, rfl⟩⟩
    exact cursor_decomposition _ _ s.events s.i

/-- Witness for C8 at the scenario-S1 simulator. -/
theorem eventSet_cursor_monotone_witness :
    simS1.i ≤ simS1.nextPath.2.2.i ∧
    (∃ pre mid : List Event,
      simS1.i + pre.length + mid.length = simS1.nextPath.2.2.i ∧
      simS1.events.drop simS1.i = pre ++ (mid ++ simS1.events.drop simS1.nextPath.2.2.i) ∧
      simS1.nextPath.2.1 = mid.map simS1.emit) :=
  ⟨(eventSet_cursor_monotone simS1).1, (eventSet_cursor_monotone simS1).2 (by decide)⟩

/-- C4: if the reference window equals the historical window and the dataset
fits that window exactly — the historical window is a whole block of
`Y = end.year - start.year ≥ 1` years and every event lies inside it — then
the first `nextPath` call returns `true` with the buffer holding the
historical event sequence verbatim (same dates, as serial day numbers, same
losses, same order), and the second call returns `false` with an empty
buffer. -/
theorem eventSet_round_trip (events : List Event) (histStart histEnd : Date)
    (hin : ∀ ev ∈ events, toSerial histStart ≤ toSerial ev.1 ∧ toSerial ev.1 ≤ toSerial histEnd)
    (hv : validDate histStart)
    (hfit : histEnd = addYears histStart (histEnd.year - histStart.year))
    (hY : 1 ≤ histEnd.year - histStart.year) :
    (EventSetSimulation.make events histStart histEnd histStart histEnd).nextPath.1 = true ∧
    (EventSetSimulation.make events histStart histEnd histStart histEnd).nextPath.2.1 =
      events.map (fun ev => (toSerial ev.1, ev.2)) ∧
    (EventSetSimulation.make events histStart histEnd histStart histEnd).nextPath.2.2.nextPath.1
      = false ∧
    (EventSetSimulation.make events histStart histEnd histStart histEnd).nextPath.2.2.nextPath.2.1
      = [] := by
  have hpe : toSerial (EventSetSimulation.make events histStart histEnd histStart histEnd).periodEnd
      = toSerial histEnd := by
    unfold EventSetSimulation.make
    dsimp only
    rw [← hfit]
  have hc : ¬ toSerial (EventSetSimulation.make events histStart histEnd histStart histEnd).eventsEnd
      < toSerial (EventSetSimulation.make events histStart histEnd histStart histEnd).periodEnd := by
    rw [hpe]
    exact lt_irrefl _
  have hsel : (EventSetSimulation.make events histStart histEnd histStart histEnd).selected
      = events := by
    unfold EventSetSimulation.selected EventSetSimulation.make
    dsimp only
    rw [List.drop_zero]
    rw [dropWhile_eq_self_of_all _ _ (fun ev hev => by
      simp only [decide_eq_true_eq, not_lt]
      exact (hin ev hev).1)]
    rw [List.takeWhile_eq_self_iff.mpr (fun ev hev => by
      simp only [decide_eq_true_eq]
      rw [← hfit]
      exact (hin ev hev).2)]
  have hlive := nextPath_live_eq (EventSetSimulation.make events histStart histEnd histStart histEnd) hc
  refine ⟨by rw [hlive], ?_, ?_, ?_⟩
  · rw [hlive]
    dsimp only
    rw [hsel]
    apply List.map_congr_left
    intro ev _
    unfold EventSetSimulation.emit EventSetSimulation.make
    dsimp only
    simp only [Prod.mk.injEq]
    exact ⟨by omega, trivial⟩
  · have hex : (EventSetSimulation.make events histStart histEnd histStart histEnd).advanced.exhausted := by
      unfold EventSetSimulation.advanced EventSetSimulation.make EventSetSimulation.exhausted
      dsimp only
      conv_lhs => rw [hfit]
      exact toSerial_addYears_lt _ (addYears_valid histStart hv _) _ hY
    rw [hlive]
    dsimp only
    rw [nextPath_exhausted_eq _ hex]
  · have hex : (EventSetSimulation.make events histStart histEnd histStart histEnd).advanced.exhausted := by
      unfold EventSetSimulation.advanced EventSetSimulation.make EventSetSimulation.exhausted
      dsimp only
      conv_lhs => rw [hfit]
      exact toSerial_addYears_lt _ (addYears_valid histStart hv _) _ hY
    rw [hlive]
    dsimp only
    rw [nextPath_exhausted_eq _ hex]

/-- Witness for C4: a two-event history over the exact two-year block
`[2000-01-01, 2002-01-01]`, used as its own reference window. -/
theorem eventSet_round_trip_witness :
    (EventSetSimulation.make [(⟨2000, 3, 15⟩, 100), (⟨2001, 7, 4⟩, 50)]
        ⟨2000, 1, 1⟩ ⟨2002, 1, 1⟩ ⟨2000, 1, 1⟩ ⟨2002, 1, 1⟩).nextPath.1 = true ∧
    (EventSetSimulation.make [(⟨2000, 3, 15⟩, 100), (⟨2001, 7, 4⟩, 50)]
        ⟨2000, 1, 1⟩ ⟨2002, 1, 1⟩ ⟨2000, 1, 1⟩ ⟨2002, 1, 1⟩).nextPath.2.1 =
      [(⟨2000, 3, 15⟩, 100), (⟨2001, 7, 4⟩, 50)].map
        (fun ev : Event => (toSerial ev.1, ev.2)) ∧
    (EventSetSimulation.make [(⟨2000, 3, 15⟩, 100), (⟨2001, 7, 4⟩, 50)]
        ⟨2000, 1, 1⟩ ⟨2002, 1, 1⟩ ⟨2000, 1, 1⟩ ⟨2002, 1, 1⟩).nextPath.2.2.nextPath.1 = false ∧
    (EventSetSimulation.make [(⟨2000, 3, 15⟩, 100), (⟨2001, 7, 4⟩, 50)]
        ⟨2000, 1, 1⟩ ⟨2002, 1, 1⟩ ⟨2000, 1, 1⟩ ⟨2002, 1, 1⟩).nextPath.2.2.nextPath.2.1 = [] :=
  eventSet_round_trip [(⟨2000, 3, 15⟩, 100), (⟨2001, 7, 4⟩, 50)] ⟨2000, 1, 1⟩ ⟨2002, 1, 1⟩
    (by decide) (by decide) (by decide) (by decide)

theorem betaGo_bounds (ml T : ℚ) (D startS : Int) (expInv gA gB : ℚ → ℚ) (u : ℕ → ℚ)
    (hpos : ∀ q, 0 < expInv q) (hD : 0 ≤ D) :
    ∀ (fuel : ℕ) (t : ℚ) (pos : ℕ) (path : List PathEvent) (pos2 : ℕ),
      0 ≤ t →
      betaNextPathGo ml T D startS expInv gA gB u t pos fuel = some (path, pos2) →
      (∀ pe ∈ path,
        startS + ratRound ((t + expInv (u pos)) * (D : ℚ) / T) ≤ pe.1 ∧
        startS ≤ pe.1 ∧ pe.1 ≤ startS + D) ∧
      path.Pairwise (fun a b => a.1 ≤ b.1) := by
  have hDq : (0 : ℚ) ≤ (D : ℚ) := by exact_mod_cast hD
  intro fuel
  induction fuel with
  | zero =>
    intro t pos path pos2 ht h
    simp [betaNextPathGo] at h
  | succ fuel ih =>
    intro t pos path pos2 ht h
    simp only [betaNextPathGo] at h
    by_cases hstop : T ≤ t + expInv (u pos)
    · rw [if_pos hstop] at h
      simp only [Option.some.injEq, Prod.mk.injEq] at h
      obtain ⟨h1, h2⟩ := h
      subst h1
      exact ⟨by intro pe hpe; simp at hpe, List.Pairwise.nil⟩
    · rw [if_neg hstop] at h
      have ht2 : 0 < t + expInv (u pos) := by
        have := hpos (u pos)
        linarith
      have hT : 0 < T := lt_trans ht2 (not_le.mp hstop)
      cases hrec : betaNextPathGo ml T D startS expInv gA gB u (t + expInv (u pos)) (pos + 3) fuel with
      | none => rw [hrec] at h; simp at h
      | some pr =>
        obtain ⟨rest, p2⟩ := pr
        rw [hrec] at h
        simp only [Option.some.injEq, Prod.mk.injEq] at h
        obtain ⟨h1, h2⟩ := h
        subst h1
        have hIH := ih (t + expInv (u pos)) (pos + 3) rest p2 ht2.le hrec
        have hup : (t + expInv (u pos)) * (D : ℚ) / T ≤ (D : ℚ) := by
          rw [div_le_iff₀ hT]
          have := mul_le_mul_of_nonneg_right (le_of_lt (not_le.mp hstop)) hDq
          linarith
        have hlow : 0 ≤ (t + expInv (u pos)) * (D : ℚ) / T :=
          div_nonneg (mul_nonneg ht2.le hDq) hT.le
        have hheadlb : startS ≤ startS + ratRound ((t + expInv (u pos)) * (D : ℚ) / T) := by
          have := ratRound_nonneg hlow
          omega
        have hheadub : startS + ratRound ((t + expInv (u pos)) * (D : ℚ) / T) ≤ startS + D := by
          have := ratRound_le_int hup
          omega
        have hmono : ratRound ((t + expInv (u pos)) * (D : ℚ) / T) ≤
            ratRound ((t + expInv (u pos) + expInv (u (pos + 3))) * (D : ℚ) / T) := by
          apply ratRound_mono
          rw [div_le_div_iff₀ hT hT]
          have hd3 := hpos (u (pos + 3))
          nlinarith [mul_nonneg (mul_nonneg hd3.le hDq) hT.le]
        constructor
        · intro pe hpe
          rcases List.mem_cons.mp hpe with rfl | hpe2
          · exact ⟨le_refl _, hheadlb, hheadub⟩
          · have hfacts := hIH.1 pe hpe2
            refine ⟨?_, hfacts.2.1, hfacts.2.2⟩
            have := hfacts.1
            omega
        · rw [List.pairwise_cons]
          refine ⟨fun pe hpe => ?_, hIH.2⟩
          have hfacts := hIH.1 pe hpe
          have := hfacts.1
          dsimp only
          omega

/-- C2 (amended): paths stay ordered, and lie in the window up to the
sub-period day-span correction.  For every successful `EventSetSimulation`
path over time-ordered events: every emitted date satisfies
`start ≤ date ≤ start + (periodEnd - periodStart)` in days, dates are
non-decreasing, and whenever the current sub-period's day span does not
exceed the reference window's day span — this is the correction; spans of
equal year length can differ by a leap day — every date also satisfies
`date ≤ end` as the claim states.  For every completed `BetaRiskSimulation`
path (with positive exponential inter-arrival variates) every date satisfies
`start ≤ date ≤ end` and dates are non-decreasing, as the claim states. -/
theorem paths_in_window :
    (∀ s : EventSetSimulation, sortedEvents s.events → s.nextPath.1 = true →
      (∀ pe ∈ s.nextPath.2.1,
        toSerial s.refStart ≤ pe.1 ∧
        pe.1 ≤ toSerial s.refStart + (toSerial s.periodEnd - toSerial s.periodStart)) ∧
      ((toSerial s.periodEnd - toSerial s.periodStart ≤ toSerial s.refEnd - toSerial s.refStart) →
        ∀ pe ∈ s.nextPath.2.1, pe.1 ≤ toSerial s.refEnd) ∧
      s.nextPath.2.1.Pairwise (fun a b => a.1 ≤ b.1)) ∧
    (∀ (r : BetaRisk) (startD endD : Date) (seed : ℕ) (expInv gA gB : ℚ → ℚ) (u : ℕ → ℚ)
        (fuel : ℕ) (path : List PathEvent) (s2 : BetaRiskSimulation),
      (∀ q, 0 < expInv q) → toSerial startD ≤ toSerial endD →
      (r.newSimulationSeeded startD endD seed).nextPath expInv gA gB u fuel = some (path, s2) →
      (∀ pe ∈ path, toSerial startD ≤ pe.1 ∧ pe.1 ≤ toSerial endD) ∧
      path.Pairwise (fun a b => a.1 ≤ b.1)) := by
  constructor
  · intro s hs hb
    by_cases hc : toSerial s.eventsEnd < toSerial s.periodEnd
    · rw [nextPath_exhausted_eq s hc] at hb
      simp at hb
    · rw [nextPath_live_eq s hc]
      dsimp only
      refine ⟨?_, ?_, ?_⟩
      · intro pe hpe
        rcases List.mem_map.mp hpe with ⟨ev, hev, rfl⟩
        have h1 := selected_ge_periodStart hs hev
        have h2 := selected_le_periodEnd hev
        unfold EventSetSimulation.emit
        dsimp only
        omega
      · intro hspan pe hpe
        rcases List.mem_map.mp hpe with ⟨ev, hev, rfl⟩
        have h2 := selected_le_periodEnd hev
        unfold EventSetSimulation.emit
        dsimp only
        omega
      · refine List.Pairwise.map _ (fun a b hab => ?_) (selected_sorted hs)
        unfold EventSetSimulation.emit
        dsimp only
        omega
  · intro r startD endD seed expInv gA gB u fuel path s2 hpos hse h
    simp only [BetaRiskSimulation.nextPath, BetaRisk.newSimulationSeeded] at h
    cases hrec : betaNextPathGo r.maxLoss (((toSerial endD - toSerial startD : ℤ) : ℚ) / 365)
        (toSerial endD - toSerial startD) (toSerial startD) expInv gA gB u 0 0 fuel with
    | none => rw [hrec] at h; simp at h
    | some pr =>
      obtain ⟨pth, pos2⟩ := pr
      rw [hrec] at h
      simp only [Option.some.injEq, Prod.mk.injEq] at h
      obtain ⟨h1, h2⟩ := h
      subst h1
      have hB := betaGo_bounds r.maxLoss (((toSerial endD - toSerial startD : ℤ) : ℚ) / 365)
        (toSerial endD - toSerial startD) (toSerial startD) expInv gA gB u hpos
        (by omega) fuel 0 0 _ _ le_rfl hrec
      refine ⟨fun pe hpe => ?_, hB.2⟩
      have hfacts := (hB.1 pe hpe).2
      omega

/-- Counterexample for C2 as stated: the event on 2001-01-01, the closing day
of the 366-day sub-period `[2000-01-01, 2001-01-01]`, is remapped to
`2010-06-01 + 366` days, past the reference end 2011-05-31 (364 days after
the reference start): the emitted date exceeds `end`. -/
theorem paths_in_window_cx :
    sortedEvents simOverrun.events ∧
    simOverrun.nextPath.1 = true ∧
    ∃ pe ∈ simOverrun.nextPath.2.1, toSerial simOverrun.refEnd < pe.1 := by decide

/-- Witness for C2 (amended): the event-set half at the scenario-S1
simulator, and the Beta half at a degenerate one-day window run that stops
on its first draw. -/
theorem paths_in_window_witness :
    ((∀ pe ∈ simS1.nextPath.2.1,
        toSerial simS1.refStart ≤ pe.1 ∧
        pe.1 ≤ toSerial simS1.refStart + (toSerial simS1.periodEnd - toSerial simS1.periodStart)) ∧
      ((toSerial simS1.periodEnd - toSerial simS1.periodStart
          ≤ toSerial simS1.refEnd - toSerial simS1.refStart) →
        ∀ pe ∈ simS1.nextPath.2.1, pe.1 ≤ toSerial simS1.refEnd) ∧
      simS1.nextPath.2.1.Pairwise (fun a b => a.1 ≤ b.1)) ∧
    ((∀ pe ∈ ([] : List PathEvent),
        toSerial (⟨2010, 1, 1⟩ : Date) ≤ pe.1 ∧ pe.1 ≤ toSerial (⟨2010, 1, 1⟩ : Date)) ∧
      ([] : List PathEvent).Pairwise (fun a b => a.1 ≤ b.1)) := by
  constructor
  · exact paths_in_window.1 simS1 (by decide) (by decide)
  · refine paths_in_window.2 betaSample ⟨2010, 1, 1⟩ ⟨2010, 1, 1⟩ 0 (fun _ => 2) id id
      (fun _ => 0) 1 [] { betaSample.newSimulationSeeded ⟨2010, 1, 1⟩ ⟨2010, 1, 1⟩ 0 with pos := 1 }
      (fun q => by norm_num) (le_refl _) ?_
    simp only [BetaRiskSimulation.nextPath, BetaRisk.newSimulationSeeded, betaNextPathGo]
    rw [if_pos (by rw [sub_self]; norm_num)]

/-- C5: the `BetaRisk` constructor fails with `InvalidInput` exactly when the
derived Beta shape parameter alpha or beta is non-positive; in particular
constructing with `mean = maxLoss` always fails with `InvalidInput`, while
`maxLoss = 1000, years = 10, mean = 1, stdDev = 1/100` succeeds. -/
theorem betaRisk_invalid_iff :
    (∀ maxLoss years mean stdDev : ℚ,
      BetaRisk.make maxLoss years mean stdDev = .error .invalidInput ↔
        alphaShape maxLoss years mean stdDev ≤ 0 ∨ betaShape maxLoss years mean stdDev ≤ 0) ∧
    (∀ maxLoss years stdDev : ℚ,
      BetaRisk.make maxLoss years maxLoss stdDev = .error .invalidInput) ∧
    (∃ r : BetaRisk, BetaRisk.make 1000 10 1 (1/100) = .ok r) := by
  have hmean : ∀ maxLoss years stdDev : ℚ,
      alphaShape maxLoss years maxLoss stdDev ≤ 0 := by
    intro maxLoss years stdDev
    unfold alphaShape
    by_cases hm : maxLoss = 0
    · subst hm
      norm_num
    · rw [div_self hm]
      norm_num
  refine ⟨?_, ?_, ?_⟩
  · intro maxLoss years mean stdDev
    unfold BetaRisk.make
    dsimp only
    split_ifs with h
    · simp [h]
    · simp [h]
  · intro maxLoss years stdDev
    unfold BetaRisk.make
    dsimp only
    rw [if_pos (Or.inl (hmean maxLoss years stdDev))]
  · have hcond : ¬(alphaShape 1000 10 1 (1/100) ≤ 0 ∨ betaShape 1000 10 1 (1/100) ≤ 0) := by
      rw [not_or, not_le, not_le]
      constructor
      · unfold alphaShape
        norm_num
      · unfold betaShape alphaShape
        norm_num
    exact ⟨_, by unfold BetaRisk.make; dsimp only; rw [if_neg hcond]⟩

/-- Witness for C5 at `mean = maxLoss = 7`. -/
theorem betaRisk_invalid_iff_witness :
    BetaRisk.make 7 3 7 2 = .error .invalidInput :=
  betaRisk_invalid_iff.2.1 7 3 2

/-- C6 (spec-modelled seeding, section 4.4): in the reproducibility mode a
caller-supplied seed fully determines the simulator: two `BetaRiskSimulation`
instances built from the same model, window and seed are equal — hence every
path sequence derived from them is identical — and the seed genuinely selects
the engine state: distinct 32-bit seeds give distinct mt19937 states. -/
theorem beta_seed_reproducibility :
    (∀ (r : BetaRisk) (startD endD : Date) (s1 s2 : ℕ), s1 = s2 →
      r.newSimulationSeeded startD endD s1 = r.newSimulationSeeded startD endD s2) ∧
    (∀ (r : BetaRisk) (startD endD : Date) (s1 s2 : ℕ),
      s1 < mtMask → s2 < mtMask → s1 ≠ s2 →
      (r.newSimulationSeeded startD endD s1).rngState ≠
        (r.newSimulationSeeded startD endD s2).rngState) := by
  constructor
  · intro r sd ed s1 s2 h
    rw [h]
  · intro r sd ed s1 s2 h1 h2 hne contra
    simp only [BetaRisk.newSimulationSeeded] at contra
    have hh := congrArg List.head? contra
    rw [mt19937InitState_head, mt19937InitState_head, Nat.mod_eq_of_lt h1,
      Nat.mod_eq_of_lt h2] at hh
    exact hne (Option.some.inj hh)

/-- Witness for C6: seed 42 reproduces the simulator; seeds 0 and 1 give
distinct engine states. -/
theorem beta_seed_reproducibility_witness :
    betaSample.newSimulationSeeded ⟨2010, 1, 1⟩ ⟨2015, 1, 1⟩ 42 =
      betaSample.newSimulationSeeded ⟨2010, 1, 1⟩ ⟨2015, 1, 1⟩ 42 ∧
    (betaSample.newSimulationSeeded ⟨2010, 1, 1⟩ ⟨2015, 1, 1⟩ 0).rngState ≠
      (betaSample.newSimulationSeeded ⟨2010, 1, 1⟩ ⟨2015, 1, 1⟩ 1).rngState :=
  ⟨beta_seed_reproducibility.1 betaSample ⟨2010, 1, 1⟩ ⟨2015, 1, 1⟩ 42 42 rfl,
   beta_seed_reproducibility.2 betaSample ⟨2010, 1, 1⟩ ⟨2015, 1, 1⟩ 0 1
     (by decide) (by decide) (by decide)⟩

/-- C7 (spec-modelled seeding, sections 4.4 and 5): two simulators spawned by
successive `newSimulation` calls on one `BetaRisk` model receive distinct
mt19937 states (consecutive seeds differ modulo `2^32`, and the states differ
already in word 0); moreover the raw output streams driving their paths are
not identical: for the first two spawned engines (seeds 0 and 1) already the
first generated words differ.  Spec section 4.4 states independence as
"distinct internal states"; the C++ distribution transforms on top of the raw
stream are implementation-defined, so non-identity is stated at the
engine-output level. -/
theorem beta_spawn_independent :
    (∀ (r : BetaRisk) (startD endD : Date) (entropy : ℕ),
      ((r.newSimulation startD endD entropy).1).rngState ≠
        ((r.newSimulation startD endD (r.newSimulation startD endD entropy).2).1).rngState) ∧
    mtFirstRaw (mt19937InitState 0) ≠ mtFirstRaw (mt19937InitState 1) := by
  constructor
  · intro r sd ed e contra
    simp only [BetaRisk.newSimulation, BetaRisk.newSimulationSeeded] at contra
    have hh := congrArg List.head? contra
    rw [mt19937InitState_head, mt19937InitState_head] at hh
    have h2 := Option.some.inj hh
    simp only [mtMask] at h2
    omega
  · decide

/-- Witness for C7: the first two spawns from entropy 5 differ in state. -/
theorem beta_spawn_independent_witness :
    ((betaSample.newSimulation ⟨2010, 1, 1⟩ ⟨2011, 1, 1⟩ 5).1).rngState ≠
      ((betaSample.newSimulation ⟨2010, 1, 1⟩ ⟨2011, 1, 1⟩
          (betaSample.newSimulation ⟨2010, 1, 1⟩ ⟨2011, 1, 1⟩ 5).2).1).rngState :=
  beta_spawn_independent.1 betaSample ⟨2010, 1, 1⟩ ⟨2011, 1, 1⟩ 5

/-- C9: within one `BetaRiskSimulation` path loop, the exponential generator
and both gamma generators draw from the single shared engine: a completed
call consumes exactly the engine outputs at positions `[pos, pos2)` with
`pos2 = pos + 3 * pathLength + 1` — one common stream advanced once per draw
in the interleaved order delta, x, y — and the produced path together with
the final position is a deterministic function of the engine outputs on that
window alone: any stream agreeing there yields the identical result. -/
theorem beta_shared_engine :
    ∀ (ml T : ℚ) (D startS : Int) (expInv gA gB : ℚ → ℚ) (u : ℕ → ℚ)
      (fuel : ℕ) (t : ℚ) (pos : ℕ) (path : List PathEvent) (pos2 : ℕ),
      betaNextPathGo ml T D startS expInv gA gB u t pos fuel = some (path, pos2) →
      pos2 = pos + 3 * path.length + 1 ∧
      (∀ u2 : ℕ → ℚ, (∀ k, pos ≤ k → k < pos2 → u2 k = u k) →
        betaNextPathGo ml T D startS expInv gA gB u2 t pos fuel = some (path, pos2)) := by
  intro ml T D startS expInv gA gB u fuel
  induction fuel with
  | zero =>
    intro t pos path pos2 h
    simp [betaNextPathGo] at h
  | succ fuel ih =>
    intro t pos path pos2 h
    simp only [betaNextPathGo] at h
    by_cases hstop : T ≤ t + expInv (u pos)
    · rw [if_pos hstop] at h
      simp only [Option.some.injEq, Prod.mk.injEq] at h
      obtain ⟨h1, h2⟩ := h
      subst h1
      subst h2
      refine ⟨by simp, ?_⟩
      intro u2 hu2
      have hu0 : u2 pos = u pos := hu2 pos (le_refl _) (by omega)
      simp only [betaNextPathGo, hu0]
      rw [if_pos hstop]
    · rw [if_neg hstop] at h
      cases hrec : betaNextPathGo ml T D startS expInv gA gB u (t + expInv (u pos)) (pos + 3) fuel with
      | none => rw [hrec] at h; simp at h
      | some pr =>
        obtain ⟨rest, p2⟩ := pr
        rw [hrec] at h
        simp only [Option.some.injEq, Prod.mk.injEq] at h
        obtain ⟨h1, h2⟩ := h
        subst h1
        subst h2
        have hIH := ih (t + expInv (u pos)) (pos + 3) rest p2 hrec
        have hlen := hIH.1
        refine ⟨by simp only [List.length_cons]; omega, ?_⟩
        intro u2 hu2
        have hu0 : u2 pos = u pos := hu2 pos (le_refl _) (by omega)
        have hu1 : u2 (pos + 1) = u (pos + 1) := hu2 _ (by omega) (by omega)
        have hu2b : u2 (pos + 2) = u (pos + 2) := hu2 _ (by omega) (by omega)
        simp only [betaNextPathGo, hu0, hu1, hu2b]
        rw [if_neg hstop, hIH.2 u2 (fun k hk1 hk2 => hu2 k (by omega) (by omega))]

/-- Witness for C9 at a one-draw run that stops immediately. -/
theorem beta_shared_engine_witness :
    (1 : ℕ) = 0 + 3 * ([] : List PathEvent).length + 1 ∧
    (∀ u2 : ℕ → ℚ, (∀ k, 0 ≤ k → k < 1 → u2 k = (fun _ => (0 : ℚ)) k) →
      betaNextPathGo 1000 0 0 0 (fun _ => 2) id id u2 0 0 1 = some ([], 1)) :=
  beta_shared_engine 1000 0 0 0 (fun _ => 2) id id (fun _ => 0) 1 0 0 [] 1
    (by simp only [betaNextPathGo]; rw [if_pos (by norm_num)])

/-- C10: `null_deleter` is a no-op for every pointer of every type: invoking
it leaves the heap unchanged, so releasing the last reference of a
`shared_ptr` constructed with `null_deleter` never destroys the pointee —
its liveness is exactly what it was before. -/
theorem null_deleter_noop :
    ∀ (π : Type) (p : π) (h : Heap π),
      null_deleter p h = h ∧
      releaseLast null_deleter p h = h ∧
      (releaseLast null_deleter p h) p = h p :=
  fun _ _ _ => ⟨rfl, rfl, rfl⟩

end CatRisk
